import Mathlib

/-!
Shallow embedding of the MyPack repository's bounded-history keyed list
(`IList`, src/unnamed/part_000) and of `MathUtils.clamp`
(src/scripts/api/utils/MathUtils.js), with theorems settling the frozen
claims about them.

Modelling conventions, chosen to mirror the JavaScript source:
* stored values are modelled by `JSVal` (numbers or strings); the zero
  sentinel used by `Array(n).fill(0)` is `JSVal.num 0`;
* the backing `Map` is an insertion-ordered association list with
  JS-`Map` semantics (`mapGet`, `mapSet`, `mapDelete`, `mapHas`);
* a JS key argument is `Option String` (`none` = `null`/omitted); JS
  truthiness of a key (`!key`) is `truthyKey`: `null` and the empty
  string are falsy;
* a method that can `throw` returns `Except String`; when the method
  also mutates the receiver the mutated state is returned alongside
  (mutations performed before a `throw` persist, as in JS).
-/

/-- A JavaScript value stored in an `IList`: the repository pushes
numbers and strings; `Array(n).fill(0)` pads with the number `0`. -/
inductive JSVal where
  | num (n : ℤ)
  | str (s : String)
  deriving DecidableEq, Repr

/-- The default sentinel `0` used by `new Array(maxSize).fill(0)`. -/
def zeroVal : JSVal := JSVal.num 0

/-- JS `Map.prototype.get`: first (unique) binding of the key. -/
def mapGet (m : List (String × List JSVal)) (k : String) : Option (List JSVal) :=
  List.lookup k m

/-- JS `Map.prototype.set`: replace the binding in place if the key is
present, otherwise append a new binding at the end. -/
def mapSet (m : List (String × List JSVal)) (k : String) (v : List JSVal) :
    List (String × List JSVal) :=
  match m with
  | [] => [(k, v)]
  | (k1, v1) :: rest => if k1 = k then (k, v) :: rest else (k1, v1) :: mapSet rest k v

/-- JS `Map.prototype.delete` (the resulting map): drop the key's binding. -/
def mapDelete (m : List (String × List JSVal)) (k : String) :
    List (String × List JSVal) :=
  m.filter (fun p => p.1 ≠ k)

/-- JS `Map.prototype.has`. -/
def mapHas (m : List (String × List JSVal)) (k : String) : Bool :=
  (List.lookup k m).isSome

/-- JS truthiness of a key value: `null` (`none`) and the empty string
are falsy, every other string is truthy. -/
def truthyKey : Option String → Bool
  | none => false
  | some s => !s.isEmpty

/-- JS `a || b` on two key values. -/
def jsOrKey (a b : Option String) : Option String :=
  if truthyKey a then a else b

/-- The `IList` instance state: `maxSize` and `data` are the constructor
fields, `most_recent_key` starts as `null`. -/
structure IList where
  maxSize : Nat
  data : List (String × List JSVal)
  most_recent_key : Option String
  deriving DecidableEq, Repr

/-- `new IList(maxSize)`. -/
def IList.new (maxSize : Nat) : IList :=
  { maxSize := maxSize, data := [], most_recent_key := none }

/-- The key a method with parameter `key = this.most_recent_key`
actually operates on when called with argument `arg`. -/
def IList.effKey (s : IList) (arg : Option String) : Option String :=
  match arg with
  | none => s.most_recent_key
  | some k => some k

/-- `IList.get(key)`: records `key` as most recent and returns the
stored array, or a fresh `maxSize`-length zero-filled array if absent
(a stored array is always truthy in JS, so `||` picks it when present). -/
def IList.get (s : IList) (key : String) : List JSVal × IList :=
  ((mapGet s.data key).getD (List.replicate s.maxSize zeroVal),
   { s with most_recent_key := some key })

/-- `IList.push(value, key = this.most_recent_key)`: sets
`most_recent_key` to the effective key, throws when that key is falsy,
otherwise appends to the existing array and shifts once when its length
exceeds `maxSize`, or creates a zero-filled array and appends (the
`most_recent_key` assignment persists even when the method throws). -/
def IList.push (s : IList) (value : JSVal) (arg : Option String) :
    Except String Unit × IList :=
  let key := s.effKey arg
  let s1 : IList := { s with most_recent_key := key }
  if !truthyKey key then
    (Except.error "Key must be provided or set before using set method.", s1)
  else
    match key with
    | none => (Except.error "Key must be provided or set before using set method.", s1)
    | some k =>
      match mapGet s1.data k with
      | some currentData =>
        let pushed := currentData ++ [value]
        let trimmed := if pushed.length > s1.maxSize then pushed.tail else pushed
        (Except.ok (), { s1 with data := mapSet s1.data k trimmed })
      | none =>
        (Except.ok (),
         { s1 with data := mapSet s1.data k (List.replicate s1.maxSize zeroVal ++ [value]) })

/-- `IList.removeData(key = null)`: with a truthy key, delete that
binding and report whether it existed; otherwise clear the whole map
and return `undefined` (`none`). -/
def IList.removeData (s : IList) (arg : Option String) : Option Bool × IList :=
  if truthyKey arg then
    match arg with
    | some k => (some (mapHas s.data k), { s with data := mapDelete s.data k })
    | none => (none, { s with data := [] })
  else
    (none, { s with data := [] })

/-- `IList.has(key = this.most_recent_key)`: throws when both the
effective key and `most_recent_key` are falsy, otherwise tests
membership of `key || this.most_recent_key`. -/
def IList.has (s : IList) (arg : Option String) : Except String Bool :=
  let key := s.effKey arg
  if !truthyKey key && !truthyKey s.most_recent_key then
    Except.error "Key must be provided or set before using has method."
  else
    match jsOrKey key s.most_recent_key with
    | some k => Except.ok (mapHas s.data k)
    | none => Except.ok false

/-- `IList.getSize(key = this.most_recent_key)`: throws when both the
effective key and `most_recent_key` are falsy, otherwise the length of
the stored array for the effective key, or `0` if absent. -/
def IList.getSize (s : IList) (arg : Option String) : Except String Nat :=
  let key := s.effKey arg
  if !truthyKey key && !truthyKey s.most_recent_key then
    Except.error "Key must be provided or set before using getSize method."
  else
    match key with
    | some k => Except.ok (if mapHas s.data k then ((mapGet s.data k).getD []).length else 0)
    | none => Except.ok 0

/-- `IList.map()`: the underlying map. -/
def IList.map (s : IList) : List (String × List JSVal) :=
  s.data

/-- `IList.rawGet(key)`. -/
def IList.rawGet (s : IList) (key : String) : Option (List JSVal) :=
  mapGet s.data key

/-- `IList.rawSet(key, value)`. -/
def IList.rawSet (s : IList) (key : String) (value : List JSVal) : IList :=
  { s with data := mapSet s.data key value }

/-- `IList.clear()`: empties the map and resets `most_recent_key`. -/
def IList.clear (s : IList) : IList :=
  { s with data := [], most_recent_key := none }

/-- `IList.getMostRecentKey()`. -/
def IList.getMostRecentKey (s : IList) : Option String :=
  s.most_recent_key

/-- A sequence of `push` calls, each `(value, key argument)`, applied
left to right (results of the individual calls are discarded, as in the
spec's scenarios). -/
def IList.pushAll (s : IList) (ops : List (JSVal × Option String)) : IList :=
  ops.foldl (fun t p => (t.push p.1 p.2).2) s

/-! ### Lemmas about the JS-`Map` model -/

theorem mapGet_mapSet_self (m : List (String × List JSVal)) (k : String)
    (v : List JSVal) : mapGet (mapSet m k v) k = some v := by
  induction m with
  | nil => simp [mapGet, mapSet, List.lookup]
  | cons p rest ih =>
    obtain ⟨k1, v1⟩ := p
    by_cases h : k1 = k
    · subst h
      simp [mapGet, mapSet, List.lookup]
    · simp only [mapSet, if_neg h]
      simpa [mapGet, List.lookup, show (k == k1) = false by
        simpa using fun hk => h hk.symm] using ih

theorem mapGet_mapSet_ne (m : List (String × List JSVal)) (k k1 : String)
    (v : List JSVal) (h : k1 ≠ k) : mapGet (mapSet m k v) k1 = mapGet m k1 := by
  induction m with
  | nil => simp [mapGet, mapSet, List.lookup, show (k1 == k) = false by simpa using h]
  | cons p rest ih =>
    obtain ⟨k2, v2⟩ := p
    by_cases h2 : k2 = k
    · subst h2
      simp [mapGet, mapSet, List.lookup,
        show (k1 == k2) = false by simpa using h]
    · simp only [mapSet, if_neg h2]
      by_cases h3 : k1 = k2
      · subst h3
        simp [mapGet, List.lookup]
      · simpa [mapGet, List.lookup, show (k1 == k2) = false by simpa using h3] using ih

theorem mapGet_mapDelete_self (m : List (String × List JSVal)) (k : String) :
    mapGet (mapDelete m k) k = none := by
  induction m with
  | nil => simp [mapGet, mapDelete, List.lookup]
  | cons p rest ih =>
    obtain ⟨k1, v1⟩ := p
    by_cases h : k1 = k
    · subst h
      simpa [mapDelete, List.filter] using ih
    · simpa [mapGet, mapDelete, List.filter, h, List.lookup,
        show (k == k1) = false by simpa using fun hk => h hk.symm] using ih

theorem mapGet_mapDelete_ne (m : List (String × List JSVal)) (k k1 : String)
    (h : k1 ≠ k) : mapGet (mapDelete m k) k1 = mapGet m k1 := by
  induction m with
  | nil => simp [mapGet, mapDelete, List.lookup]
  | cons p rest ih =>
    obtain ⟨k2, v2⟩ := p
    by_cases h2 : k2 = k
    · subst h2
      simpa [mapGet, mapDelete, List.filter, List.lookup,
        show (k1 == k2) = false by simpa using h] using ih
    · by_cases h3 : k1 = k2
      · subst h3
        simp [mapGet, mapDelete, List.filter, h2, List.lookup]
      · simpa [mapGet, mapDelete, List.filter, h2, List.lookup,
          show (k1 == k2) = false by simpa using h3] using ih

theorem mapHas_eq_isSome (m : List (String × List JSVal)) (k : String) :
    mapHas m k = (mapGet m k).isSome := rfl

/-! ### Characterization of the `IList` operations -/

theorem IList.push_of_falsy (s : IList) (v : JSVal) (arg : Option String)
    (h : truthyKey (s.effKey arg) = false) :
    s.push v arg =
      (Except.error "Key must be provided or set before using set method.",
       { s with most_recent_key := s.effKey arg }) := by
  unfold IList.push
  rcases harg : s.effKey arg with _ | k
  · simp [harg, truthyKey]
  · rw [harg] at h
    simp [harg, h]

theorem IList.push_of_new (s : IList) (v : JSVal) (arg : Option String) (k : String)
    (harg : s.effKey arg = some k) (hk : k.isEmpty = false)
    (h : mapGet s.data k = none) :
    s.push v arg =
      (Except.ok (),
       { s with most_recent_key := some k,
                data := mapSet s.data k (List.replicate s.maxSize zeroVal ++ [v]) }) := by
  unfold IList.push
  rw [harg]
  simp [truthyKey, hk, h]

theorem IList.push_of_mem (s : IList) (v : JSVal) (arg : Option String) (k : String)
    (l : List JSVal)
    (harg : s.effKey arg = some k) (hk : k.isEmpty = false)
    (h : mapGet s.data k = some l) :
    s.push v arg =
      (Except.ok (),
       { s with most_recent_key := some k,
                data := mapSet s.data k
                  (if s.maxSize < l.length + 1 then (l ++ [v]).tail else l ++ [v]) }) := by
  unfold IList.push
  rw [harg]
  simp [truthyKey, hk, h]

theorem IList.removeData_none (s : IList) :
    s.removeData none = (none, { s with data := [] }) := by
  simp [IList.removeData, truthyKey]

theorem IList.removeData_some (s : IList) (k : String) (hk : k.isEmpty = false) :
    s.removeData (some k) =
      (some (mapHas s.data k), { s with data := mapDelete s.data k }) := by
  simp [IList.removeData, truthyKey, hk]

theorem IList.removeData_falsy (s : IList) (arg : Option String)
    (h : truthyKey arg = false) :
    s.removeData arg = (none, { s with data := [] }) := by
  simp [IList.removeData, h]

/-- States reachable from `new IList(c)` by the checked mutating methods
(`push`, `get`, `removeData`, `clear`); the raw escape hatches
(`rawSet`) are excluded. -/
inductive IList.Reachable : IList → Prop where
  | init (c : Nat) : IList.Reachable (IList.new c)
  | push (s : IList) (v : JSVal) (arg : Option String) :
      IList.Reachable s → IList.Reachable (s.push v arg).2
  | get (s : IList) (k : String) :
      IList.Reachable s → IList.Reachable (s.get k).2
  | removeData (s : IList) (arg : Option String) :
      IList.Reachable s → IList.Reachable (s.removeData arg).2
  | clear (s : IList) : IList.Reachable s → IList.Reachable s.clear

/-- Core invariant of the checked interface: every stored array has
length exactly `maxSize + 1` (the first push appends to the
`maxSize`-length zero fill without trimming; later pushes append one
element and shift one off). -/
theorem IList.reachable_entry_length (s : IList) (h : IList.Reachable s) :
    ∀ k l, mapGet s.data k = some l → l.length = s.maxSize + 1 := by
  induction h with
  | init c =>
    intro k l hl
    simp [IList.new, mapGet, List.lookup] at hl
  | push s v arg hs ih =>
    intro k l hl
    by_cases htr : truthyKey (s.effKey arg) = false
    · rw [IList.push_of_falsy s v arg htr] at hl ⊢
      exact ih k l hl
    · rcases harg : s.effKey arg with _ | k0
      · rw [harg] at htr
        simp [truthyKey] at htr
      · rw [harg] at htr
        have hk0 : k0.isEmpty = false := by
          simpa [truthyKey] using htr
        rcases h0 : mapGet s.data k0 with _ | l0
        · rw [IList.push_of_new s v arg k0 harg hk0 h0] at hl ⊢
          dsimp only at hl ⊢
          by_cases hkk : k = k0
          · subst hkk
            rw [mapGet_mapSet_self] at hl
            cases hl
            simp
          · rw [mapGet_mapSet_ne s.data k0 k _ hkk] at hl
            exact ih k l hl
        · have hl0 : l0.length = s.maxSize + 1 := ih k0 l0 h0
          rw [IList.push_of_mem s v arg k0 l0 harg hk0 h0] at hl ⊢
          dsimp only at hl ⊢
          have hcond : s.maxSize < l0.length + 1 := by omega
          rw [if_pos hcond] at hl
          by_cases hkk : k = k0
          · subst hkk
            rw [mapGet_mapSet_self] at hl
            cases hl
            have hlen : (l0 ++ [v]).length = s.maxSize + 2 := by
              simp [hl0]
            simp [List.length_tail, hlen]
          · rw [mapGet_mapSet_ne s.data k0 k _ hkk] at hl
            exact ih k l hl
  | get s k0 hs ih =>
    intro k l hl
    exact ih k l hl
  | removeData s arg hs ih =>
    intro k l hl
    by_cases htr : truthyKey arg = false
    · rw [IList.removeData_falsy s arg htr] at hl ⊢
      dsimp only at hl
      simp [mapGet, List.lookup] at hl
    · rcases arg with _ | k0
      · simp [truthyKey] at htr
      · have hk0 : k0.isEmpty = false := by simpa [truthyKey] using htr
        rw [IList.removeData_some s k0 hk0] at hl ⊢
        dsimp only at hl ⊢
        by_cases hkk : k = k0
        · subst hkk
          rw [mapGet_mapDelete_self] at hl
          cases hl
        · rw [mapGet_mapDelete_ne s.data k0 k hkk] at hl
          exact ih k l hl
  | clear s hs ih =>
    intro k l hl
    simp [IList.clear, mapGet, List.lookup] at hl

theorem IList.push_maxSize (s : IList) (v : JSVal) (arg : Option String) :
    (s.push v arg).2.maxSize = s.maxSize := by
  by_cases htr : truthyKey (s.effKey arg) = false
  · rw [IList.push_of_falsy s v arg htr]
  · rcases harg : s.effKey arg with _ | k0
    · rw [harg] at htr
      simp [truthyKey] at htr
    · rw [harg] at htr
      have hk0 : k0.isEmpty = false := by simpa [truthyKey] using htr
      rcases h0 : mapGet s.data k0 with _ | l0
      · rw [IList.push_of_new s v arg k0 harg hk0 h0]
      · rw [IList.push_of_mem s v arg k0 l0 harg hk0 h0]

theorem IList.push_most_recent_key (s : IList) (v : JSVal) (arg : Option String) :
    (s.push v arg).2.most_recent_key = s.effKey arg := by
  by_cases htr : truthyKey (s.effKey arg) = false
  · rw [IList.push_of_falsy s v arg htr]
  · rcases harg : s.effKey arg with _ | k0
    · rw [harg] at htr
      simp [truthyKey] at htr
    · rw [harg] at htr
      have hk0 : k0.isEmpty = false := by simpa [truthyKey] using htr
      rcases h0 : mapGet s.data k0 with _ | l0
      · rw [IList.push_of_new s v arg k0 harg hk0 h0]
      · rw [IList.push_of_mem s v arg k0 l0 harg hk0 h0]

theorem IList.pushAll_nil (s : IList) : s.pushAll [] = s := rfl

theorem IList.pushAll_cons (s : IList) (p : JSVal × Option String)
    (ops : List (JSVal × Option String)) :
    s.pushAll (p :: ops) = ((s.push p.1 p.2).2).pushAll ops := rfl

theorem IList.reachable_pushAll (s : IList) (ops : List (JSVal × Option String))
    (h : IList.Reachable s) : IList.Reachable (s.pushAll ops) := by
  induction ops generalizing s with
  | nil => exact h
  | cons p ops ih =>
    rw [IList.pushAll_cons]
    exact ih _ (IList.Reachable.push s p.1 p.2 h)

theorem IList.pushAll_maxSize (s : IList) (ops : List (JSVal × Option String)) :
    (s.pushAll ops).maxSize = s.maxSize := by
  induction ops generalizing s with
  | nil => rfl
  | cons p ops ih =>
    rw [IList.pushAll_cons, ih, IList.push_maxSize]

/-- Evolution of one key's entry under consecutive pushes to that key:
starting from a full entry `l` (length `maxSize + 1`), pushing the
values `vs` leaves the last `maxSize + 1` elements of `l ++ vs`. -/
theorem IList.pushAll_entry (vs : List JSVal) :
    ∀ (s : IList) (k : String) (l : List JSVal), k.isEmpty = false →
      mapGet s.data k = some l → l.length = s.maxSize + 1 →
      mapGet (s.pushAll (vs.map (fun v => (v, some k)))).data k
        = some ((l ++ vs).drop vs.length) := by
  induction vs with
  | nil =>
    intro s k l hk hl hlen
    simpa [IList.pushAll] using hl
  | cons v vs ih =>
    intro s k l hk hl hlen
    have harg : s.effKey (some k) = some k := rfl
    have hpush := IList.push_of_mem s v (some k) k l harg hk hl
    have hdata : (s.push v (some k)).2.data = mapSet s.data k ((l ++ [v]).tail) := by
      rw [hpush]
      dsimp only
      rw [if_pos (by omega)]
    have hmax : (s.push v (some k)).2.maxSize = s.maxSize :=
      IList.push_maxSize s v (some k)
    have hl1 : mapGet (s.push v (some k)).2.data k = some ((l ++ [v]).tail) := by
      rw [hdata, mapGet_mapSet_self]
    have hlen1 : ((l ++ [v]).tail).length = (s.push v (some k)).2.maxSize + 1 := by
      rw [hmax]
      have hlv : (l ++ [v]).length = s.maxSize + 2 := by simp [hlen]
      simp [List.length_tail, hlv]
    rw [List.map_cons, IList.pushAll_cons]
    have hrec := ih (s.push v (some k)).2 k ((l ++ [v]).tail) hk hl1 hlen1
    rw [hrec]
    congr 1
    rcases l with _ | ⟨x, xs⟩
    · exact absurd hlen (by simp)
    · simp

/-! ### Claim theorems -/

/-- C1, counterexample: with capacity 5, a single push to the fresh key
"k1" gives `getSize` 6, not the capacity 5 claimed by the spec (the
first push appends to the 5-element zero fill without trimming). -/
theorem C1_counterexample :
    ((IList.new 5).push (JSVal.str "v") (some "k1")).2.getSize (some "k1")
      = Except.ok 6 ∧ (IList.new 5).maxSize = 5 :=
  ⟨rfl, rfl⟩

/-- C1 (amended): for any capacity `c ≥ 1`, after a single push of one
value to a (truthy) key with no stored entry, `getSize` for that key
returns `c + 1`, one more than the configured capacity. -/
theorem IList.getSize_of_mem (s : IList) (k : String) (l : List JSVal)
    (hk : k.isEmpty = false) (h : mapGet s.data k = some l) :
    s.getSize (some k) = Except.ok l.length := by
  have hhas : mapHas s.data k = true := by
    rw [mapHas_eq_isSome, h]
    rfl
  unfold IList.getSize
  dsimp only [IList.effKey]
  rw [show truthyKey (some k) = true from by simp [truthyKey, hk]]
  simp only [Bool.not_true, Bool.false_and, Bool.false_eq_true, if_false, hhas, h,
    Option.getD_some, if_true]

theorem IList.getSize_of_not_mem (s : IList) (k : String)
    (hk : k.isEmpty = false) (h : mapGet s.data k = none) :
    s.getSize (some k) = Except.ok 0 := by
  have hhas : mapHas s.data k = false := by
    rw [mapHas_eq_isSome, h]
    rfl
  unfold IList.getSize
  dsimp only [IList.effKey]
  rw [show truthyKey (some k) = true from by simp [truthyKey, hk]]
  simp only [Bool.not_true, Bool.false_and, Bool.false_eq_true, if_false, hhas]

theorem IList.has_of_truthy (s : IList) (k : String) (hk : k.isEmpty = false) :
    s.has (some k) = Except.ok (mapHas s.data k) := by
  unfold IList.has
  dsimp only [IList.effKey]
  rw [show truthyKey (some k) = true from by simp [truthyKey, hk]]
  simp [jsOrKey, truthyKey, hk]

theorem C1_amended (c : Nat) (s : IList) (v : JSVal) (k : String)
    (hc : 1 ≤ c) (hmax : s.maxSize = c) (hk : k.isEmpty = false)
    (hnew : mapGet s.data k = none) :
    (s.push v (some k)).2.getSize (some k) = Except.ok (c + 1) := by
  rw [IList.push_of_new s v (some k) k rfl hk hnew]
  dsimp only
  rw [IList.getSize_of_mem _ k (List.replicate s.maxSize zeroVal ++ [v]) hk
    (mapGet_mapSet_self s.data k _)]
  simp [hmax]

/-- C1 witness: the amended statement evaluated at capacity 5. -/
theorem C1_amended_witness :
    ((IList.new 5).push (JSVal.str "v") (some "k1")).2.getSize (some "k1")
      = Except.ok 6 :=
  C1_amended 5 (IList.new 5) (JSVal.str "v") "k1" (by decide) rfl (by decide) rfl

/-- C2, counterexample: with capacity 1, a single push already stores a
2-element array, so the length does exceed the configured capacity. -/
theorem C2_counterexample :
    mapGet ((IList.new 1).pushAll [(JSVal.num 7, some "k")]).data "k"
        = some [zeroVal, JSVal.num 7]
      ∧ ([zeroVal, JSVal.num 7] : List JSVal).length = 2
      ∧ (IList.new 1).maxSize = 1 :=
  ⟨rfl, rfl, rfl⟩

/-- C2 (amended): for every key and every sequence of push operations
on an `IList` constructed with capacity `c` (no raw operations), the
stored sequence's length never exceeds `c + 1`: the first push fills to
`c + 1`, and every later insertion evicts the oldest element, keeping
the length at `c + 1`. -/
theorem C2_amended (c : Nat) (ops : List (JSVal × Option String)) (k : String)
    (l : List JSVal) (h : mapGet ((IList.new c).pushAll ops).data k = some l) :
    l.length ≤ c + 1 := by
  have hr := IList.reachable_pushAll (IList.new c) ops (IList.Reachable.init c)
  have hlen := IList.reachable_entry_length _ hr k l h
  rw [IList.pushAll_maxSize] at hlen
  simp only [IList.new] at hlen
  omega

/-- C2 witness: the amended bound evaluated after one push at capacity 1. -/
theorem C2_amended_witness :
    ([zeroVal, JSVal.num 7] : List JSVal).length ≤ 1 + 1 :=
  C2_amended 1 [(JSVal.num 7, some "k")] "k" [zeroVal, JSVal.num 7] rfl

/-- C9: the invariant `push` actually maintains. Every stored array in
a state reachable through the checked interface has length exactly
`maxSize + 1`; the first push to a key stores the `maxSize`-length zero
fill with the value appended (no trimming), and each subsequent push to
a full key appends the value and evicts exactly the oldest element. -/
theorem C9_push_invariant :
    (∀ s : IList, IList.Reachable s → ∀ k l, mapGet s.data k = some l →
        l.length = s.maxSize + 1)
  ∧ (∀ (s : IList) (v : JSVal) (k : String), k.isEmpty = false →
        mapGet s.data k = none →
        mapGet (s.push v (some k)).2.data k
          = some (List.replicate s.maxSize zeroVal ++ [v]))
  ∧ (∀ (s : IList) (v : JSVal) (k : String) (l : List JSVal), k.isEmpty = false →
        mapGet s.data k = some l → l.length = s.maxSize + 1 →
        mapGet (s.push v (some k)).2.data k = some (l.tail ++ [v])) := by
  refine ⟨fun s h => IList.reachable_entry_length s h, ?_, ?_⟩
  · intro s v k hk hnew
    rw [IList.push_of_new s v (some k) k rfl hk hnew]
    dsimp only
    rw [mapGet_mapSet_self]
  · intro s v k l hk hmem hlen
    rw [IList.push_of_mem s v (some k) k l rfl hk hmem]
    dsimp only
    rw [if_pos (by omega), mapGet_mapSet_self]
    congr 1
    rcases l with _ | ⟨x, xs⟩
    · exact absurd hlen (by simp)
    · simp

/-- C9 witness: the invariant evaluated on the state reached by one
push at capacity 2: the stored array has length 2 + 1. -/
theorem C9_push_invariant_witness :
    ([zeroVal, zeroVal, JSVal.num 7] : List JSVal).length
      = ((IList.new 2).push (JSVal.num 7) (some "k")).2.maxSize + 1 :=
  C9_push_invariant.1 ((IList.new 2).push (JSVal.num 7) (some "k")).2
    (IList.Reachable.push (IList.new 2) (JSVal.num 7) (some "k")
      (IList.Reachable.init 2))
    "k" [zeroVal, zeroVal, JSVal.num 7] rfl

theorem drop_replicate_append (c n : Nat) (z : JSVal) (l : List JSVal)
    (h : c ≤ n) : (List.replicate c z ++ l).drop n = l.drop (n - c) := by
  induction c generalizing n with
  | zero => simp
  | succ c ih =>
    rcases n with _ | n
    · omega
    · simp only [List.replicate_succ, List.cons_append, List.drop_succ_cons]
      rw [ih n (by omega)]
      congr 1
      omega

/-- C3, counterexample: capacity 2, three pushes of the markers 1, 2, 3
to "k" — `get` returns all three markers (the most recent 3 = c + 1
values), not the most recent 2 = c values the spec claims. -/
theorem C3_counterexample :
    (((IList.new 2).pushAll
        [(JSVal.num 1, some "k"), (JSVal.num 2, some "k"), (JSVal.num 3, some "k")]).get
        "k").1
      = [JSVal.num 1, JSVal.num 2, JSVal.num 3]
    ∧ (IList.new 2).maxSize = 2 :=
  ⟨rfl, rfl⟩

/-- C3 (amended): after `n > c` sequential pushes of the values `vs` to
a fresh (truthy) key on an `IList` of capacity `c`, `get` returns
exactly the last `c + 1` pushed values in insertion order (all the
default padding and all values before `v_{n-c}` have been evicted). -/
theorem C3_amended (c : Nat) (k : String) (vs : List JSVal)
    (hk : k.isEmpty = false) (h : c < vs.length) :
    (((IList.new c).pushAll (vs.map (fun v => (v, some k)))).get k).1
      = vs.drop (vs.length - (c + 1)) := by
  rcases vs with _ | ⟨v, vs2⟩
  · simp at h
  · rw [List.map_cons, IList.pushAll_cons]
    have hnew : mapGet (IList.new c).data k = none := rfl
    have hpush := IList.push_of_new (IList.new c) v (some k) k rfl hk hnew
    have h1 : mapGet ((IList.new c).push v (some k)).2.data k
        = some (List.replicate c zeroVal ++ [v]) := by
      rw [hpush]
      dsimp only
      exact mapGet_mapSet_self (IList.new c).data k _
    have hmax1 : ((IList.new c).push v (some k)).2.maxSize = c :=
      IList.push_maxSize (IList.new c) v (some k)
    have hlen1 : (List.replicate c zeroVal ++ [v]).length
        = ((IList.new c).push v (some k)).2.maxSize + 1 := by
      rw [hmax1]
      simp
    have hrec := IList.pushAll_entry vs2 ((IList.new c).push v (some k)).2 k
      (List.replicate c zeroVal ++ [v]) hk h1 hlen1
    unfold IList.get
    dsimp only
    rw [hrec]
    rw [Option.getD_some]
    rw [List.append_assoc, List.singleton_append,
      drop_replicate_append c vs2.length zeroVal (v :: vs2)
        (by simp only [List.length_cons] at h; omega)]
    congr 1
    simp only [List.length_cons]
    omega

/-- C3 witness: the amended statement at capacity 1 with pushes 1, 2. -/
theorem C3_amended_witness :
    (((IList.new 1).pushAll
        ([JSVal.num 1, JSVal.num 2].map (fun v => (v, some "k")))).get "k").1
      = [JSVal.num 1, JSVal.num 2].drop ([JSVal.num 1, JSVal.num 2].length - (1 + 1)) :=
  C3_amended 1 "k" [JSVal.num 1, JSVal.num 2] (by decide) (by decide)

/-- C4: with the key argument omitted, `push`, `has` and `getSize` each
behave exactly as if called with `most_recent_key` (the key recorded by
the most recent `get`/`push`); and when `most_recent_key` is still
`null` and no key is given, each of the three throws its missing-key
error. -/
theorem C4_default_key (s : IList) (v : JSVal) :
    (s.most_recent_key = none →
        (s.push v none).1
            = Except.error "Key must be provided or set before using set method."
          ∧ s.has none
            = Except.error "Key must be provided or set before using has method."
          ∧ s.getSize none
            = Except.error "Key must be provided or set before using getSize method.")
  ∧ (s.push v none = s.push v s.most_recent_key
      ∧ s.has none = s.has s.most_recent_key
      ∧ s.getSize none = s.getSize s.most_recent_key) := by
  obtain ⟨c, d, mrk⟩ := s
  constructor
  · intro h
    have hm : mrk = none := h
    subst hm
    exact ⟨rfl, rfl, rfl⟩
  · rcases mrk with _ | k
    · exact ⟨rfl, rfl, rfl⟩
    · exact ⟨rfl, rfl, rfl⟩

/-- C4 witness: the three missing-key errors on a fresh `IList`. -/
theorem C4_default_key_witness :
    ((IList.new 3).push (JSVal.num 1) none).1
        = Except.error "Key must be provided or set before using set method."
      ∧ (IList.new 3).has none
        = Except.error "Key must be provided or set before using has method."
      ∧ (IList.new 3).getSize none
        = Except.error "Key must be provided or set before using getSize method." :=
  (C4_default_key (IList.new 3) (JSVal.num 1)).1 rfl

/-- C5, counterexample: for the never-written key `""`, `get("")`
returns the defaults and creates no entry, but the subsequent
`has("")` throws the missing-key error instead of returning `false`,
because the empty string is falsy in JS. -/
theorem C5_counterexample :
    (((IList.new 5).get "").1 = List.replicate 5 zeroVal)
  ∧ ((IList.new 5).get "").2.data = []
  ∧ (((IList.new 5).get "").2.has (some "")
      = Except.error "Key must be provided or set before using has method.") :=
  ⟨rfl, rfl, rfl⟩

/-- C5 (amended): for a nonempty (truthy) key `k` with no stored entry,
`get(k)` returns `maxSize` default zeros, stores nothing (so a second
`get(k)` again returns fresh defaults and `has(k)` afterwards returns
`false`), and records `k` as the last-used key; for the empty key the
same holds except that the subsequent `has("")` throws the missing-key
error. -/
theorem C5_amended (s : IList) (k : String) (hk : k.isEmpty = false)
    (hnew : mapGet s.data k = none) :
    (s.get k).1 = List.replicate s.maxSize zeroVal
  ∧ (s.get k).2.data = s.data
  ∧ (s.get k).2.most_recent_key = some k
  ∧ ((s.get k).2.get k).1 = List.replicate s.maxSize zeroVal
  ∧ (s.get k).2.has (some k) = Except.ok false := by
  refine ⟨?_, rfl, rfl, ?_, ?_⟩
  · simp [IList.get, hnew]
  · show (mapGet s.data k).getD (List.replicate s.maxSize zeroVal)
      = List.replicate s.maxSize zeroVal
    simp [hnew]
  · rw [IList.has_of_truthy _ k hk]
    have hh : mapHas (s.get k).2.data k = false := by
      show mapHas s.data k = false
      rw [mapHas_eq_isSome, hnew]
      rfl
    rw [hh]

/-- C5 witness: the amended statement for key "a" on a fresh `IList`. -/
theorem C5_amended_witness :
    ((IList.new 3).get "a").1 = List.replicate 3 zeroVal
  ∧ ((IList.new 3).get "a").2.data = (IList.new 3).data
  ∧ ((IList.new 3).get "a").2.most_recent_key = some "a"
  ∧ (((IList.new 3).get "a").2.get "a").1 = List.replicate 3 zeroVal
  ∧ ((IList.new 3).get "a").2.has (some "a") = Except.ok false :=
  C5_amended (IList.new 3) "a" rfl rfl

/-- C6, counterexample: the empty string is falsy in JS, so on a store
whose only key is `""` (reachable via `rawSet`), `removeData("")` does
not report `true` for the existing key — it returns no status
(`undefined`) and clears the entire store. -/
theorem C6_counterexample :
    mapHas ((IList.new 3).rawSet "" [JSVal.num 1]).data "" = true
  ∧ (((IList.new 3).rawSet "" [JSVal.num 1]).removeData (some "")).1 = none
  ∧ (((IList.new 3).rawSet "" [JSVal.num 1]).removeData (some "")).2.data = [] :=
  ⟨rfl, rfl, rfl⟩

/-- C6 (amended): for a nonempty (truthy) key `k`, `removeData(k)`
returns `true` when `k` has an entry (and `has(k)` is `false`
afterwards) and `false` when it has none; `removeData()` with no
argument — or with a falsy key such as `""` — deletes every entry
(afterwards `map()` is empty) and returns no status. -/
theorem C6_amended (s : IList) (k : String) (hk : k.isEmpty = false) :
    (mapHas s.data k = true →
        (s.removeData (some k)).1 = some true
      ∧ (s.removeData (some k)).2.has (some k) = Except.ok false)
  ∧ (mapHas s.data k = false → (s.removeData (some k)).1 = some false)
  ∧ (s.removeData none).1 = none
  ∧ (s.removeData none).2.map = [] := by
  refine ⟨fun h => ⟨?_, ?_⟩, fun h => ?_, rfl, rfl⟩
  · rw [IList.removeData_some s k hk]
    dsimp only
    rw [h]
  · rw [IList.removeData_some s k hk]
    dsimp only
    rw [IList.has_of_truthy _ k hk]
    have hh : mapHas ({ s with data := mapDelete s.data k } : IList).data k = false := by
      show mapHas (mapDelete s.data k) k = false
      rw [mapHas_eq_isSome, mapGet_mapDelete_self]
      rfl
    rw [hh]
  · rw [IList.removeData_some s k hk]
    dsimp only
    rw [h]

/-- C6 witness: the amended statement on a store holding key "a", and
on a fresh store without it. -/
theorem C6_amended_witness :
    (((IList.new 2).rawSet "a" [JSVal.num 5]).removeData (some "a")).1 = some true
  ∧ (((IList.new 2).rawSet "a" [JSVal.num 5]).removeData (some "a")).2.has (some "a")
      = Except.ok false
  ∧ ((IList.new 2).removeData (some "a")).1 = some false
  ∧ ((IList.new 2).removeData none).1 = none
  ∧ ((IList.new 2).removeData none).2.map = [] := by
  have h1 := C6_amended ((IList.new 2).rawSet "a" [JSVal.num 5]) "a" rfl
  have h2 := C6_amended (IList.new 2) "a" rfl
  exact ⟨(h1.1 rfl).1, (h1.1 rfl).2, h2.2.1 rfl, h2.2.2.1, h2.2.2.2⟩

/-- C7: a push whose effective key (explicit, or taken from the
last-used key) is `k2` leaves the stored entry of every other key `k1`
unchanged. -/
theorem C7_push_frame (s : IList) (v : JSVal) (arg : Option String)
    (k1 k2 : String) (heff : s.effKey arg = some k2) (hne : k1 ≠ k2) :
    mapGet ((s.push v arg).2).data k1 = mapGet s.data k1 := by
  by_cases htr : truthyKey (s.effKey arg) = false
  · rw [IList.push_of_falsy s v arg htr]
  · rw [heff] at htr
    have hk2 : k2.isEmpty = false := by simpa [truthyKey] using htr
    rcases h0 : mapGet s.data k2 with _ | l0
    · rw [IList.push_of_new s v arg k2 heff hk2 h0]
      dsimp only
      exact mapGet_mapSet_ne s.data k2 k1 _ hne
    · rw [IList.push_of_mem s v arg k2 l0 heff hk2 h0]
      dsimp only
      exact mapGet_mapSet_ne s.data k2 k1 _ hne

/-- C7 witness: pushing to "p2" (implicitly, via the last-used key)
leaves "p1" untouched. -/
theorem C7_push_frame_witness :
    mapGet (((((IList.new 3).push (JSVal.str "a") (some "p1")).2.get "p2").2.push
        (JSVal.str "c") none).2).data "p1"
      = mapGet ((((IList.new 3).push (JSVal.str "a") (some "p1")).2.get "p2").2).data "p1" :=
  C7_push_frame ((((IList.new 3).push (JSVal.str "a") (some "p1")).2.get "p2").2)
    (JSVal.str "c") none "p1" "p2" rfl (by decide)

/-- C10: `removeData()` with no argument clears every entry but leaves
`most_recent_key` unchanged, while `clear()` also resets it to `null`;
consequently a push with no explicit key still succeeds after
`removeData()` (given a truthy last-used key) and recreates an entry
under that key. -/
theorem C10_removeData_keeps_key (s : IList) (v : JSVal) (k : String)
    (hmrk : s.most_recent_key = some k) (hk : k.isEmpty = false) :
    (s.removeData none).2.most_recent_key = s.most_recent_key
  ∧ (s.removeData none).2.data = []
  ∧ s.clear.most_recent_key = none
  ∧ s.clear.data = []
  ∧ ((s.removeData none).2.push v none).1 = Except.ok ()
  ∧ mapGet (((s.removeData none).2.push v none).2).data k
      = some (List.replicate s.maxSize zeroVal ++ [v]) := by
  have heff : (s.removeData none).2.effKey none = some k := by
    show s.most_recent_key = some k
    exact hmrk
  have hnew : mapGet (s.removeData none).2.data k = none := rfl
  have hpush := IList.push_of_new (s.removeData none).2 v none k heff hk hnew
  refine ⟨rfl, rfl, rfl, rfl, ?_, ?_⟩
  · rw [hpush]
  · rw [hpush]
    dsimp only
    exact mapGet_mapSet_self (s.removeData none).2.data k _

/-- C10 witness: after a push to "p" and `removeData()`, a keyless push
succeeds and recreates "p". -/
theorem C10_removeData_keeps_key_witness :
    ((((IList.new 2).push (JSVal.num 1) (some "p")).2.removeData none).2.most_recent_key
        = ((IList.new 2).push (JSVal.num 1) (some "p")).2.most_recent_key)
  ∧ ((((IList.new 2).push (JSVal.num 1) (some "p")).2.removeData none).2.data = [])
  ∧ ((IList.new 2).push (JSVal.num 1) (some "p")).2.clear.most_recent_key = none
  ∧ ((IList.new 2).push (JSVal.num 1) (some "p")).2.clear.data = []
  ∧ (((((IList.new 2).push (JSVal.num 1) (some "p")).2.removeData none).2.push
        (JSVal.num 2) none).1 = Except.ok ())
  ∧ mapGet ((((((IList.new 2).push (JSVal.num 1) (some "p")).2.removeData
          none).2.push (JSVal.num 2) none).2).data) "p"
      = some (List.replicate ((IList.new 2).push (JSVal.num 1) (some "p")).2.maxSize
          zeroVal ++ [JSVal.num 2]) :=
  C10_removeData_keeps_key ((IList.new 2).push (JSVal.num 1) (some "p")).2
    (JSVal.num 2) "p" rfl rfl

/-! ### MathUtils.clamp (src/scripts/api/utils/MathUtils.js) -/

/-- A JavaScript value passed to `MathUtils.clamp`: `num` is a finite
number (modelled as a rational, which covers every finite IEEE double
exactly), `nan` is the number `NaN` (`typeof NaN === "number"` but
`isNaN(NaN)`), and `notNum` is any value whose `typeof` is not
`"number"`. -/
inductive JSNum where
  | num (x : ℚ)
  | nan
  | notNum

/-- `typeof v === "number"` — `NaN` is a number. -/
def JSNum.isNumber : JSNum → Bool
  | .num _ => true
  | .nan => true
  | .notNum => false

/-- `isNaN(v)` for the values `clamp` can receive past the `typeof`
check. -/
def JSNum.isNaNVal : JSNum → Bool
  | .nan => true
  | _ => false

/-- The numeric content of a genuine number; junk value `0` otherwise
(only applied behind the `typeof`/`isNaN` guards, mirroring how the
source only reaches the comparison with genuine numbers). -/
def JSNum.toNum : JSNum → ℚ
  | .num x => x
  | _ => 0

namespace MathUtils

/-- `MathUtils.clamp(value, min, max)`: `TypeError` when any argument
is not a number, error when any is `NaN`, error when `min > max`, else
`Math.max(min, Math.min(max, value))`. -/
def clamp (value mn mx : JSNum) : Except String ℚ :=
  if !(value.isNumber && mn.isNumber && mx.isNumber) then
    Except.error "All parameters must be numbers."
  else if value.isNaNVal || mn.isNaNVal || mx.isNaNVal then
    Except.error "Parameters cannot be NaN."
  else if mn.toNum > mx.toNum then
    Except.error "Minimum value cannot be greater than maximum value."
  else
    Except.ok (max mn.toNum (min mx.toNum value.toNum))

end MathUtils

/-- Errors of `clamp` are recognisable without naming the message. -/
def clampErrored (e : Except String ℚ) : Bool :=
  match e with
  | Except.error _ => true
  | Except.ok _ => false

/-- C8: `MathUtils.clamp` throws when an argument is not a number or is
`NaN`, throws when `min > max`, and otherwise returns
`max(min, min(max, value))`, i.e. the value clamped into `[min, max]`. -/
theorem C8_clamp_correct :
    (∀ value mn mx : JSNum,
        (value.isNumber = false ∨ mn.isNumber = false ∨ mx.isNumber = false
          ∨ value = JSNum.nan ∨ mn = JSNum.nan ∨ mx = JSNum.nan) →
        clampErrored (MathUtils.clamp value mn mx) = true)
  ∧ (∀ v a b : ℚ, b < a →
        clampErrored (MathUtils.clamp (JSNum.num v) (JSNum.num a) (JSNum.num b)) = true)
  ∧ (∀ v a b : ℚ, a ≤ b →
        MathUtils.clamp (JSNum.num v) (JSNum.num a) (JSNum.num b)
          = Except.ok (max a (min b v))) := by
  refine ⟨?_, ?_, ?_⟩
  · intro value mn mx h
    rcases value <;> rcases mn <;> rcases mx <;>
      simp_all [MathUtils.clamp, JSNum.isNumber, JSNum.isNaNVal, clampErrored]
  · intro v a b h
    simp [MathUtils.clamp, JSNum.isNumber, JSNum.isNaNVal, JSNum.toNum,
      clampErrored, h]
  · intro v a b h
    simp [MathUtils.clamp, JSNum.isNumber, JSNum.isNaNVal, JSNum.toNum,
      not_lt.mpr h]

/-- C8 witness: `clamp` at a non-number, at an inverted range, and at
the in-range example `clamp(5, 0, 3) = 3` from the source docs. -/
theorem C8_clamp_correct_witness :
    clampErrored (MathUtils.clamp JSNum.notNum (JSNum.num 0) (JSNum.num 1)) = true
  ∧ clampErrored (MathUtils.clamp (JSNum.num 5) (JSNum.num 3) (JSNum.num 0)) = true
  ∧ MathUtils.clamp (JSNum.num 5) (JSNum.num 0) (JSNum.num 3)
      = Except.ok (max 0 (min 3 5)) :=
  ⟨C8_clamp_correct.1 JSNum.notNum (JSNum.num 0) (JSNum.num 1) (Or.inl rfl),
   C8_clamp_correct.2.1 5 3 0 (by norm_num),
   C8_clamp_correct.2.2 5 0 3 (by norm_num)⟩
